import Mathlib

/-!
Shallow embedding of `src/app.py` (reporte_inscritos).

The program reads a tabular dataset of course-registration rows and builds a
multi-page PDF report.  We model a dataframe row as a record of optional
fields (`none` = pandas `NaN`), the pdf as a list of `Page` values carrying
exactly the data the source draws on each page, and the temporary-file
lifecycle as an explicit list of existing file paths.

Pandas timestamp parsing (`pd.to_datetime`) is external library code; it is
abstracted as a parameter `parse : String → Option Nat` (`none` = the value
raises).  Everything else is translated line by line from
`generar_reporte_inscritos` and `main` in `src/app.py`.
-/

namespace ReporteInscritos

/-- A raw dataframe row.  `none` models a pandas null (`NaN`); `some s`
models a present text value, which may be the empty string. -/
structure RawRecord where
  nombre : Option String
  curso : Option String
  hora : Option String
  correo : Option String
deriving DecidableEq, Repr

/-- A row that survived `df.dropna(subset=[...])` (line 21): the three
required fields are known to be non-null.  The timestamp is still raw text. -/
structure KeptRecord where
  nombre : String
  curso : String
  hora : String
  correo : Option String
deriving DecidableEq, Repr

/-- A row after `pd.to_datetime` (line 24) succeeded on its timestamp. -/
structure CleanRecord where
  nombre : String
  curso : String
  hora : Nat
  correo : Option String
deriving DecidableEq, Repr

/-- Line 21: `df.dropna(subset=['Nombre y apellidos completos',
'Curso de interés', 'Hora de inicio'])`.  pandas `dropna` drops a row iff one
of the listed columns holds a null; empty strings are not null and are kept. -/
def dropna : List RawRecord → List KeptRecord
  | [] => []
  | r :: rs =>
    match r.nombre, r.curso, r.hora with
    | some n, some c, some h => ⟨n, c, h, r.correo⟩ :: dropna rs
    | _, _, _ => dropna rs

/-- Re-embed a kept row as a raw row (all required fields present). -/
def KeptRecord.toRaw (r : KeptRecord) : RawRecord :=
  ⟨some r.nombre, some r.curso, some r.hora, r.correo⟩

/-- The message `pd.to_datetime` produces on an unparseable value
(abstracted to a fixed text). -/
def timestampErrorMsg : String := "could not convert string to datetime"

/-- The message raised when `fecha_minima` is `NaT` (empty clean set) and
line 54 calls `.strftime` on it. -/
def natStrftimeMsg : String := "NaTType does not support strftime"

/-- Line 24: `df['Hora de inicio'] = pd.to_datetime(df['Hora de inicio'])`.
`pd.to_datetime` is called with the default `errors='raise'`: the whole call
raises as soon as one value fails to parse; no row is dropped here. -/
def parseColumn (parse : String → Option Nat) :
    List KeptRecord → Except String (List CleanRecord)
  | [] => .ok []
  | r :: rs =>
    match parse r.hora with
    | none => .error timestampErrorMsg
    | some t =>
      match parseColumn parse rs with
      | .error e => .error e
      | .ok cs => .ok (⟨r.nombre, r.curso, t, r.correo⟩ :: cs)

/-- Keep-first deduplication with an accumulator of already seen values;
models both pandas `nunique` (via the length) and `drop_duplicates`. -/
def dedupFirstAux [DecidableEq α] (seen : List α) : List α → List α
  | [] => []
  | x :: xs =>
    if x ∈ seen then dedupFirstAux seen xs
    else x :: dedupFirstAux (x :: seen) xs

/-- Keep-first deduplication: first occurrence of each value, in order. -/
def dedupFirst [DecidableEq α] (l : List α) : List α :=
  dedupFirstAux [] l

/-- pandas `Series.nunique`: the number of distinct values. -/
def nunique [DecidableEq α] (l : List α) : Nat :=
  (dedupFirst l).length

/-- Line 28/29: `df['Hora de inicio'].min()` / `.max()`; `none` models `NaT`
on an empty series. -/
def minHora (rows : List CleanRecord) : Option Nat :=
  (rows.map (·.hora)).min?

def maxHora (rows : List CleanRecord) : Option Nat :=
  (rows.map (·.hora)).max?

/-- The distinct course names in pandas `groupby` order: `groupby` sorts the
group keys ascending (lexicographically). -/
def coursesSorted (rows : List CleanRecord) : List String :=
  (dedupFirst (rows.map (·.curso))).mergeSort fun a b => decide (a ≤ b)

/-- Distinct registrant names for one course:
`df.groupby('Curso de interés')['Nombre y apellidos completos'].nunique()`
restricted to one group. -/
def cursoNunique (rows : List CleanRecord) (c : String) : Nat :=
  nunique ((rows.filter fun r => r.curso == c).map (·.nombre))

/-- The `groupby(...).nunique()` series of line 33, before `sort_values`:
one `(course, distinct-name-count)` pair per course, courses ascending. -/
def inscripcionesPorCursoRaw (rows : List CleanRecord) : List (String × Nat) :=
  (coursesSorted rows).map fun c => (c, cursoNunique rows c)

/-- `Series.sort_values(ascending=False)` as pandas implements it
(`nargsort`): argsort ascending, then reverse the whole indexer.  The
ascending argsort is modelled as a stable sort, which matches numpy's
behaviour on the tie groups arising here. -/
def sortValuesDesc (l : List (String × Nat)) : List (String × Nat) :=
  (l.mergeSort fun a b => decide (a.2 ≤ b.2)).reverse

/-- Line 33 in full: `df.groupby('Curso de interés')['Nombre y apellidos
completos'].nunique().sort_values(ascending=False)`. -/
def inscripciones_por_curso (rows : List CleanRecord) : List (String × Nat) :=
  sortValuesDesc (inscripcionesPorCursoRaw rows)

/-- Line 103: `df[df['Curso de interés'] == curso][['Nombre y apellidos
completos', 'Correo de contacto']].drop_duplicates()` — the (name, email)
pairs of one course, exact duplicate pairs removed, first occurrence kept. -/
def datos_curso (rows : List CleanRecord) (c : String) :
    List (String × Option String) :=
  dedupFirst ((rows.filter fun r => r.curso == c).map fun r => (r.nombre, r.correo))

/-- One page of the generated pdf, carrying the data the source draws on it. -/
inductive Page where
  /-- Page 1 (lines 40–95): header statistics, generation date and the
  ranked bar chart. -/
  | chart (personasUnicas : Nat) (fechaMinima fechaMaxima : Nat)
      (ranking : List (String × Nat)) (fechaElaboracion : String)
  /-- One roster page (lines 97–147): course title, `len(datos_curso)` in
  the subtitle, and the table rows. -/
  | tabla (curso : String) (totalInscritos : Nat)
      (datos : List (String × Option String))
deriving DecidableEq, Repr

/-- The tuple `generar_reporte_inscritos` returns (line 149), plus the page
list standing for the pdf written to `ruta_pdf`. -/
structure Result where
  rutaPdf : String
  personasUnicas : Nat
  fechaMinima : Nat
  fechaMaxima : Nat
  inscripcionesPorCurso : List (String × Nat)
  pages : List Page
deriving DecidableEq, Repr

/-- `generar_reporte_inscritos(df)` (lines 16–149) together with its effect
on the set of existing files.

* `parse` abstracts `pd.to_datetime` on a single value;
* `now` is the wall-clock `datetime.now().strftime(...)` text of line 30;
* `tmpName` is the path `tempfile.NamedTemporaryFile(delete=False)` picks;
* `fs` is the list of files existing before the call.

Order of events, as in the source: dropna (21), to_datetime (24, may raise
before any file exists), statistics (27–33), temporary file creation (36),
page rendering (39–147, `.strftime` on `NaT` raises when the clean set is
empty — after the temporary file exists), return (149). -/
def generarFs (parse : String → Option Nat) (now tmpName : String)
    (df : List RawRecord) (fs : List String) :
    Except String Result × List String :=
  match parseColumn parse (dropna df) with
  | .error e => (.error e, fs)
  | .ok clean =>
    let personas_unicas := nunique (clean.map (·.nombre))
    let ranking := inscripciones_por_curso clean
    let fs1 := tmpName :: fs
    match minHora clean, maxHora clean with
    | some fmin, some fmax =>
      let page1 := Page.chart personas_unicas fmin fmax ranking now
      let tablePages := ranking.map fun p =>
        Page.tabla p.1 (datos_curso clean p.1).length (datos_curso clean p.1)
      (.ok ⟨tmpName, personas_unicas, fmin, fmax, ranking, page1 :: tablePages⟩, fs1)
    | _, _ => (.error natStrftimeMsg, fs1)

/-- The pure view of one generation call: just its outcome. -/
def generar_reporte_inscritos (parse : String → Option Nat)
    (now tmpName : String) (df : List RawRecord) : Except String Result :=
  (generarFs parse now tmpName df []).1

/-- The caller in `main` (lines 226–271): on success it reads the pdf and
deletes the temporary file (line 268, `os.unlink(ruta_pdf)`); on any
exception it only shows an error message (line 271) — no file is deleted. -/
def mainAfterGenerate (parse : String → Option Nat) (now tmpName : String)
    (df : List RawRecord) (fs : List String) : List String :=
  match generarFs parse now tmpName df fs with
  | (.ok r, fs1) => fs1.erase r.rutaPdf
  | (.error _, fs1) => fs1

/-- The count shown as `Registros válidos` (line 206): the number of rows
surviving `dropna` on the three required columns. -/
def cleanCount (df : List RawRecord) : Nat :=
  (dropna df).length

/-- The validator exactly as the spec words it (for comparison with
`dropna`): drop a row when a required field is null OR empty. -/
def validateSpec (rows : List RawRecord) : List RawRecord :=
  rows.filter fun r =>
    r.nombre ≠ none ∧ r.nombre ≠ some "" ∧
    r.curso ≠ none ∧ r.curso ≠ some "" ∧
    r.hora ≠ none ∧ r.hora ≠ some ""

/-- Keep-first deduplication exactly as the spec words it: fold left,
appending each value the first time it is seen. -/
def dedupSpec [DecidableEq α] (l : List α) : List α :=
  l.foldl (fun acc x => if x ∈ acc then acc else acc ++ [x]) []

/-- The course name drawn on a page, if it is a roster page. -/
def pageCourse : Page → Option String
  | .chart _ _ _ _ _ => none
  | .tabla c _ _ => some c

/-- What the caller can observe of one run apart from the generation-date
text and the temporary path: the returned statistics and the page count
(`none` when the call raised). -/
def observables :
    Except String Result → Option (Nat × Nat × Nat × List (String × Nat) × Nat)
  | .ok r => some (r.personasUnicas, r.fechaMinima, r.fechaMaxima,
      r.inscripcionesPorCurso, r.pages.length)
  | .error _ => none

/-! ### Concrete inputs used in counterexamples and witnesses -/

/-- A concrete executable stand-in for the abstract `pd.to_datetime`
parameter, used to evaluate the pipeline on explicit inputs: the timestamp
texts appearing in the concrete datasets below parse to the matching
instants, anything else fails to parse. -/
def parseTS : String → Option Nat
  | "1" => some 1
  | "2" => some 2
  | "3" => some 3
  | "5" => some 5
  | _ => none

/-- Two courses with one registrant each; course "A" appears first in the
dataset. -/
def dfTie : List RawRecord :=
  [⟨some "Ana", some "A", some "1", some "a@x"⟩,
   ⟨some "Bob", some "B", some "2", some "b@x"⟩]

/-- The clean records of `dfTie` under `parseTS`. -/
def cleanTie : List CleanRecord :=
  [⟨"Ana", "A", 1, some "a@x"⟩, ⟨"Bob", "B", 2, some "b@x"⟩]

/-- A single row whose name field is present but empty. -/
def dfEmptyName : List RawRecord :=
  [⟨some "", some "Go", some "1", some "a@x"⟩]

/-- A fully valid row followed by a row with an unparseable timestamp. -/
def dfMixed : List RawRecord :=
  [⟨some "Ana", some "Go", some "5", some "a@x"⟩,
   ⟨some "Bob", some "Rust", some "xx", some "b@x"⟩]

/-- A single row whose fields are all present but whose timestamp does not
parse. -/
def dfBadTs : List RawRecord :=
  [⟨some "Ana", some "Go", some "xx", some "a@x"⟩]

/-- A single row with a null course: `dropna` leaves nothing. -/
def dfNoCourse : List RawRecord :=
  [⟨some "Ana", none, some "1", some "a@x"⟩]

/-- The three-row scenario of the spec (§8): a duplicated (Alice, Python)
row and one (Bob, Go) row. -/
def dfScenario : List RawRecord :=
  [⟨some "Alice", some "Python", some "1", some "a@x.com"⟩,
   ⟨some "Alice", some "Python", some "2", some "a@x.com"⟩,
   ⟨some "Bob", some "Go", some "3", some "b@x.com"⟩]

/-- The clean records of `dfScenario` under `parseTS`. -/
def cleanScenario : List CleanRecord :=
  [⟨"Alice", "Python", 1, some "a@x.com"⟩,
   ⟨"Alice", "Python", 2, some "a@x.com"⟩,
   ⟨"Bob", "Go", 3, some "b@x.com"⟩]

/-- The result the pipeline produces on `dfScenario`. -/
def resScenario : Result :=
  ⟨"tmp.pdf", 2, 1, 3, [("Python", 1), ("Go", 1)],
   [Page.chart 2 1 3 [("Python", 1), ("Go", 1)] "hoy",
    Page.tabla "Python" 1 [("Alice", some "a@x.com")],
    Page.tabla "Go" 1 [("Bob", some "b@x.com")]]⟩

/-- The result the pipeline produces on `dfTie`: the tied courses come out
in reverse alphabetical order, not in first-appearance order. -/
def resTie : Result :=
  ⟨"t.pdf", 2, 1, 2, [("B", 1), ("A", 1)],
   [Page.chart 2 1 2 [("B", 1), ("A", 1)] "hoy",
    Page.tabla "B" 1 [("Bob", some "b@x")],
    Page.tabla "A" 1 [("Ana", some "a@x")]]⟩

/-! ### Lemmas about keep-first deduplication -/

open List in
theorem mem_dedupFirstAux [DecidableEq α] (seen : List α) (l : List α) (a : α) :
    a ∈ dedupFirstAux seen l ↔ a ∈ l ∧ a ∉ seen := by
  induction l generalizing seen with
  | nil => simp [dedupFirstAux]
  | cons x xs ih =>
    by_cases hx : x ∈ seen
    · rw [dedupFirstAux, if_pos hx, ih]
      constructor
      · rintro ⟨h1, h2⟩
        exact ⟨List.mem_cons_of_mem _ h1, h2⟩
      · rintro ⟨h1, h2⟩
        rcases List.mem_cons.mp h1 with rfl | h1
        · exact absurd hx h2
        · exact ⟨h1, h2⟩
    · rw [dedupFirstAux, if_neg hx]
      constructor
      · intro h
        rcases List.mem_cons.mp h with rfl | h
        · exact ⟨List.mem_cons_self _ _, hx⟩
        · obtain ⟨h1, h2⟩ := (ih _).mp h
          exact ⟨List.mem_cons_of_mem _ h1,
            fun hs => h2 (List.mem_cons_of_mem _ hs)⟩
      · rintro ⟨h1, h2⟩
        rcases List.mem_cons.mp h1 with rfl | h1
        · exact List.mem_cons_self _ _
        · by_cases hax : a = x
          · subst hax
            exact List.mem_cons_self _ _
          · refine List.mem_cons_of_mem _ ((ih _).mpr ⟨h1, fun hs => ?_⟩)
            rcases List.mem_cons.mp hs with h | h
            · exact hax h
            · exact h2 h

theorem nodup_dedupFirstAux [DecidableEq α] (seen : List α) (l : List α) :
    (dedupFirstAux seen l).Nodup := by
  induction l generalizing seen with
  | nil => simp [dedupFirstAux]
  | cons x xs ih =>
    by_cases hx : x ∈ seen
    · simpa [dedupFirstAux, if_pos hx] using ih seen
    · simp only [dedupFirstAux, if_neg hx]
      refine List.nodup_cons.mpr ⟨?_, ih (x :: seen)⟩
      intro hmem
      exact ((mem_dedupFirstAux _ _ _).mp hmem).2 (List.mem_cons_self _ _)

theorem nodup_dedupFirst [DecidableEq α] (l : List α) : (dedupFirst l).Nodup :=
  nodup_dedupFirstAux [] l

theorem mem_dedupFirst [DecidableEq α] (l : List α) (a : α) :
    a ∈ dedupFirst l ↔ a ∈ l := by
  simp [dedupFirst, mem_dedupFirstAux]

open List in
theorem sublist_dedupFirstAux [DecidableEq α] (seen : List α) (l : List α) :
    dedupFirstAux seen l <+ l := by
  induction l generalizing seen with
  | nil => simp [dedupFirstAux]
  | cons x xs ih =>
    by_cases hx : x ∈ seen
    · simpa [dedupFirstAux, if_pos hx] using (ih seen).cons x
    · simpa [dedupFirstAux, if_neg hx] using (ih (x :: seen)).cons₂ x

open List in
theorem sublist_dedupFirst [DecidableEq α] (l : List α) : dedupFirst l <+ l :=
  sublist_dedupFirstAux [] l

/-- `dedupFirstAux` ignores a trailing value that was already seen. -/
theorem dedupFirstAux_append_mem [DecidableEq α] (seen : List α) (l : List α)
    (x : α) (hx : x ∈ seen ∨ x ∈ l) :
    dedupFirstAux seen (l ++ [x]) = dedupFirstAux seen l := by
  induction l generalizing seen with
  | nil =>
    rcases hx with hx | hx
    · simp [dedupFirstAux, if_pos hx]
    · cases hx
  | cons y ys ih =>
    by_cases hy : y ∈ seen
    · simp only [List.cons_append, dedupFirstAux, if_pos hy]
      refine ih seen ?_
      rcases hx with hx | hx
      · exact Or.inl hx
      · rcases List.mem_cons.mp hx with rfl | hx
        · exact Or.inl hy
        · exact Or.inr hx
    · simp only [List.cons_append, dedupFirstAux, if_neg hy]
      refine congrArg (y :: ·) (ih (y :: seen) ?_)
      rcases hx with hx | hx
      · exact Or.inl (List.mem_cons_of_mem _ hx)
      · rcases List.mem_cons.mp hx with rfl | hx
        · exact Or.inl (List.mem_cons_self _ _)
        · exact Or.inr hx

/-- Appending a value that already occurs does not change the distinct count. -/
theorem nunique_append_mem [DecidableEq α] (l : List α) (x : α) (hx : x ∈ l) :
    nunique (l ++ [x]) = nunique l := by
  unfold nunique dedupFirst
  rw [dedupFirstAux_append_mem [] l x (Or.inr hx)]

/-- `dedupFirst` coincides with the left-fold formulation used by the spec. -/
theorem dedupFirstAux_eq_foldl [DecidableEq α] (l : List α) :
    ∀ (seen acc : List α), (∀ x, x ∈ seen ↔ x ∈ acc) →
      l.foldl (fun acc x => if x ∈ acc then acc else acc ++ [x]) acc =
        acc ++ dedupFirstAux seen l := by
  induction l with
  | nil => intro seen acc _; simp [dedupFirstAux]
  | cons x xs ih =>
    intro seen acc hiff
    by_cases hx : x ∈ seen
    · rw [List.foldl_cons, if_pos ((hiff x).mp hx)]
      simpa [dedupFirstAux, if_pos hx] using ih seen acc hiff
    · rw [List.foldl_cons, if_neg (fun h => hx ((hiff x).mpr h))]
      rw [dedupFirstAux, if_neg hx]
      rw [ih (x :: seen) (acc ++ [x]) ?_]
      · simp
      · intro y
        simp only [List.mem_cons, List.mem_append, List.mem_singleton, hiff y]
        tauto

theorem dedupFirst_eq_dedupSpec [DecidableEq α] (l : List α) :
    dedupFirst l = dedupSpec l := by
  unfold dedupSpec dedupFirst
  simpa using (dedupFirstAux_eq_foldl l [] [] (by simp)).symm

/-! ### Lemmas about the validator (`dropna`) -/

/-- `dropna` is exactly the subsequence of rows with all three required
fields non-null, each surviving row unchanged. -/
theorem dropna_map_toRaw (rows : List RawRecord) :
    (dropna rows).map KeptRecord.toRaw =
      rows.filter fun r => r.nombre.isSome && r.curso.isSome && r.hora.isSome := by
  induction rows with
  | nil => rfl
  | cons r rs ih =>
    rcases r with ⟨n, c, h, e⟩
    rcases n with _ | n <;> rcases c with _ | c <;> rcases h with _ | h <;>
      simp [dropna, List.filter_cons, KeptRecord.toRaw, ih]

theorem length_dropna_le (rows : List RawRecord) :
    (dropna rows).length ≤ rows.length := by
  have := congrArg List.length (dropna_map_toRaw rows)
  rw [List.length_map] at this
  rw [this]
  exact List.length_filter_le _ _

theorem length_dropna_eq_iff (rows : List RawRecord) :
    (dropna rows).length = rows.length ↔
      ∀ r ∈ rows, r.nombre.isSome ∧ r.curso.isSome ∧ r.hora.isSome := by
  have hlen := congrArg List.length (dropna_map_toRaw rows)
  rw [List.length_map] at hlen
  rw [hlen, List.filter_length_eq_length]
  constructor
  · intro h r hr
    have := h r hr
    simp only [Bool.and_eq_true] at this
    exact ⟨this.1.1, this.1.2, this.2⟩
  · intro h r hr
    obtain ⟨h1, h2, h3⟩ := h r hr
    simp [h1, h2, h3]

/-! ### Lemmas about timestamp parsing (`parseColumn`) -/

/-- With pandas' default `errors='raise'`, a single unparseable timestamp
among the kept rows makes the whole conversion raise. -/
theorem parseColumn_error_of_unparseable (parse : String → Option Nat)
    (ks : List KeptRecord) (h : ∃ r ∈ ks, parse r.hora = none) :
    parseColumn parse ks = .error timestampErrorMsg := by
  induction ks with
  | nil => simp at h
  | cons r rs ih =>
    obtain ⟨s, hs, hps⟩ := h
    rcases List.mem_cons.mp hs with rfl | hs
    · simp [parseColumn, hps]
    · rw [parseColumn]
      cases hpr : parse r.hora with
      | none => rfl
      | some t => rw [ih ⟨s, hs, hps⟩]

/-- The successful case: every kept row's timestamp parses, and the clean
rows are the kept rows with parsed timestamps, in order. -/
theorem parseColumn_ok_iff (parse : String → Option Nat) (ks : List KeptRecord)
    (cs : List CleanRecord) :
    parseColumn parse ks = .ok cs ↔
      cs.map (fun c => (c.nombre, c.curso, c.correo)) =
          ks.map (fun k => (k.nombre, k.curso, k.correo)) ∧
        cs.map (fun c => some c.hora) = ks.map (fun k => parse k.hora) := by
  induction ks generalizing cs with
  | nil =>
    simp only [parseColumn, List.map_nil]
    constructor
    · rintro h
      cases h
      simp
    · intro ⟨h1, _⟩
      cases cs with
      | nil => rfl
      | cons c cs => simp at h1
  | cons k ks ih =>
    rw [parseColumn]
    cases hpk : parse k.hora with
    | none =>
      simp only [List.map_cons]
      constructor
      · intro h; cases h
      · intro ⟨_, h2⟩
        cases cs with
        | nil => simp at h2
        | cons c cs =>
          simp only [List.map_cons, List.cons.injEq] at h2
          rw [hpk] at h2
          cases h2.1
    | some t =>
      cases hrest : parseColumn parse ks with
      | error e =>
        simp only []
        constructor
        · intro h; cases h
        · intro ⟨h1, h2⟩
          cases cs with
          | nil => simp at h1
          | cons c cs =>
            simp only [List.map_cons, List.cons.injEq] at h1 h2
            have := (ih cs).mpr ⟨h1.2, h2.2⟩
            rw [hrest] at this
            cases this
      | ok ds =>
        simp only [Except.ok.injEq]
        constructor
        · rintro rfl
          have := (ih ds).mp hrest
          simp only [List.map_cons, List.cons.injEq]
          exact ⟨⟨trivial, this.1⟩, ⟨hpk.symm, this.2⟩⟩
        · intro ⟨h1, h2⟩
          cases cs with
          | nil => simp at h1
          | cons c cs =>
            simp only [List.map_cons, List.cons.injEq] at h1 h2
            have heq := (ih cs).mpr ⟨h1.2, h2.2⟩
            rw [hrest] at heq
            cases heq
            rcases c with ⟨cn, cc, ct, ce⟩
            obtain ⟨rfl, rfl, rfl⟩ := Prod.mk.injEq .. ▸ h1.1
            have : some ct = some t := by rw [h2.1, hpk]
            cases this
            rfl

/-! ### Lemmas about `minHora` / `maxHora` -/

theorem minHora_eq_none_iff (rows : List CleanRecord) :
    minHora rows = none ↔ rows = [] := by
  cases rows with
  | nil => simp [minHora, List.min?]
  | cons r rs => simp [minHora, List.min?]

theorem maxHora_eq_none_iff (rows : List CleanRecord) :
    maxHora rows = none ↔ rows = [] := by
  cases rows with
  | nil => simp [maxHora, List.max?]
  | cons r rs => simp [maxHora, List.max?]

/-! ### Position lemmas used for the ranking's tie order -/

open List in
theorem pair_sublist_of_getElem :
    ∀ (l : List α) (i j : Nat) (hi : i < l.length) (hj : j < l.length),
      i < j → [l[i], l[j]] <+ l := by
  intro l
  induction l with
  | nil => intro i j hi; simp at hi
  | cons a t ih =>
    intro i j hi hj hij
    cases i with
    | zero =>
      cases j with
      | zero => omega
      | succ j1 =>
        have hj1 : j1 < t.length := by simpa using hj
        have hmem : t[j1] ∈ t := List.getElem_mem hj1
        simp only [List.getElem_cons_zero, List.getElem_cons_succ]
        exact List.Sublist.cons₂ a (List.singleton_sublist.mpr hmem)
    | succ i1 =>
      cases j with
      | zero => omega
      | succ j1 =>
        have h := ih i1 j1 (by simpa using hi) (by simpa using hj) (by omega)
        simpa using h.cons a

open List in
theorem exists_getElem_of_pair_sublist :
    ∀ {l : List α} {x y : α}, [x, y] <+ l →
      ∃ (i j : Nat) (hi : i < l.length) (hj : j < l.length),
        i < j ∧ l[i] = x ∧ l[j] = y := by
  intro l
  induction l with
  | nil => intro x y h; nomatch h
  | cons a t ih =>
    intro x y h
    cases h with
    | cons _ h1 =>
      obtain ⟨i, j, hi, hj, hij, hx, hy⟩ := ih h1
      exact ⟨i + 1, j + 1, by simpa using hi, by simpa using hj, by omega,
        by simpa using hx, by simpa using hy⟩
    | cons₂ _ h1 =>
      have hy : y ∈ t := List.singleton_sublist.mp h1
      obtain ⟨j, hj, hyj⟩ := List.mem_iff_getElem.mp hy
      exact ⟨0, j + 1, by simp, by simpa using hj, by omega, rfl, by simpa using hyj⟩

open List in
/-- In a duplicate-free list, a pair cannot occur as a sublist in both
orders unless its two components are equal. -/
theorem eq_of_pair_sublist_both (l : List α) (hnd : l.Nodup) {a b : α}
    (h1 : [a, b] <+ l) (h2 : [b, a] <+ l) : a = b := by
  obtain ⟨i, j, hi, hj, hij, ha, hb⟩ := exists_getElem_of_pair_sublist h1
  obtain ⟨p, q, hp, hq, hpq, hb2, ha2⟩ := exists_getElem_of_pair_sublist h2
  have hiq : i = q := (hnd.getElem_inj_iff).mp (ha.trans ha2.symm)
  have hjp : j = p := (hnd.getElem_inj_iff).mp (hb.trans hb2.symm)
  omega

/-! ### Lemmas about the course ranking (line 33) -/

theorem pairwise_lt_coursesSorted (rows : List CleanRecord) :
    (coursesSorted rows).Pairwise (· < ·) := by
  unfold coursesSorted
  have htrans : ∀ a b c : String,
      decide (a ≤ b) → decide (b ≤ c) → decide (a ≤ c) := by
    intro a b c hab hbc
    simp only [decide_eq_true_eq] at *
    exact le_trans hab hbc
  have htotal : ∀ a b : String, decide (a ≤ b) || decide (b ≤ a) := by
    intro a b
    simpa [Bool.or_eq_true, decide_eq_true_eq] using le_total a b
  have hs := List.sorted_mergeSort htrans htotal
    (dedupFirst (rows.map (·.curso)))
  have hle : ((dedupFirst (rows.map (·.curso))).mergeSort
      (fun a b => decide (a ≤ b))).Pairwise (· ≤ ·) :=
    hs.imp fun h => of_decide_eq_true h
  have hnd : ((dedupFirst (rows.map (·.curso))).mergeSort
      (fun a b => decide (a ≤ b))).Nodup :=
    (List.mergeSort_perm _ _).nodup_iff.mpr (nodup_dedupFirst _)
  exact (hle.and hnd).imp fun h => lt_of_le_of_ne h.1 h.2

theorem pairwise_names_raw (rows : List CleanRecord) :
    (inscripcionesPorCursoRaw rows).Pairwise (fun a b => a.1 < b.1) := by
  unfold inscripcionesPorCursoRaw
  rw [List.pairwise_map]
  exact pairwise_lt_coursesSorted rows

theorem nodup_raw (rows : List CleanRecord) :
    (inscripcionesPorCursoRaw rows).Nodup :=
  (pairwise_names_raw rows).imp fun h heq =>
    absurd (congrArg Prod.fst heq) (ne_of_lt h)

/-- Every entry of the groupby series pairs a course with its distinct-name
count. -/
theorem mem_raw_eq (rows : List CleanRecord) {p : String × Nat}
    (hp : p ∈ inscripcionesPorCursoRaw rows) :
    p = (p.1, cursoNunique rows p.1) := by
  unfold inscripcionesPorCursoRaw at hp
  obtain ⟨c, _, rfl⟩ := List.mem_map.mp hp
  rfl

open List in
/-- The ranking the code computes is sorted by count descending, and two
entries with equal counts appear in strictly decreasing (reverse
alphabetical) name order — the reverse of the groupby key order, because
`sort_values(ascending=False)` reverses the ascending argsort. -/
theorem ranking_sorted_desc (rows : List CleanRecord) :
    (inscripciones_por_curso rows).Pairwise
      (fun a b => b.2 ≤ a.2 ∧ (a.2 = b.2 → b.1 < a.1)) := by
  unfold inscripciones_por_curso sortValuesDesc
  rw [List.pairwise_reverse]
  have htrans : ∀ a b c : String × Nat,
      decide (a.2 ≤ b.2) → decide (b.2 ≤ c.2) → decide (a.2 ≤ c.2) := by
    intro a b c hab hbc
    simp only [decide_eq_true_eq] at *
    omega
  have htotal : ∀ a b : String × Nat,
      decide (a.2 ≤ b.2) || decide (b.2 ≤ a.2) := by
    intro a b
    simpa [Bool.or_eq_true, decide_eq_true_eq] using Nat.le_total a.2 b.2
  have hsort := List.sorted_mergeSort htrans htotal (inscripcionesPorCursoRaw rows)
  have hperm : (inscripcionesPorCursoRaw rows).mergeSort
      (fun a b => decide (a.2 ≤ b.2)) ~ inscripcionesPorCursoRaw rows :=
    List.mergeSort_perm _ _
  have hnd : ((inscripcionesPorCursoRaw rows).mergeSort
      (fun a b => decide (a.2 ≤ b.2))).Nodup :=
    hperm.nodup_iff.mpr (nodup_raw rows)
  have hnames := pairwise_names_raw rows
  rw [List.pairwise_iff_forall_sublist]
  intro a b hab
  have hcount : a.2 ≤ b.2 := by
    have := List.pairwise_iff_forall_sublist.mp hsort hab
    exact of_decide_eq_true this
  refine ⟨hcount, fun heq => ?_⟩
  -- equal counts: show strictly increasing names (groupby order preserved
  -- by the stable ascending sort)
  have hne : a ≠ b := by
    intro h
    subst h
    have : ¬ [a, a].Nodup := by simp
    exact this (hab.nodup hnd)
  have hmema : a ∈ inscripcionesPorCursoRaw rows :=
    hperm.subset (hab.subset (by simp))
  have hmemb : b ∈ inscripcionesPorCursoRaw rows :=
    hperm.subset (hab.subset (by simp))
  have hname_ne : a.1 ≠ b.1 := by
    intro h
    apply hne
    have ha := mem_raw_eq rows hmema
    have hb := mem_raw_eq rows hmemb
    rw [ha, hb, h]
  rcases lt_or_gt_of_ne hname_ne with hlt | hgt
  · exact hlt
  · -- names in the wrong order: b is alphabetically first, so the stable
    -- sort keeps b before a, contradicting that a precedes b.
    exfalso
    obtain ⟨i, hi, hia⟩ := List.mem_iff_getElem.mp hmema
    obtain ⟨j, hj, hjb⟩ := List.mem_iff_getElem.mp hmemb
    have hij : j < i := by
      rcases Nat.lt_trichotomy i j with h | h | h
      · have := List.pairwise_iff_getElem.mp hnames i j hi hj h
        rw [hia, hjb] at this
        exact absurd this (lt_asymm hgt)
      · exfalso
        subst h
        exact hne (hia.symm.trans hjb)
      · exact h
    have hsubl : [b, a] <+ inscripcionesPorCursoRaw rows := by
      have := pair_sublist_of_getElem _ j i hj hi hij
      rwa [hia, hjb] at this
    have hba : [b, a] <+ (inscripcionesPorCursoRaw rows).mergeSort
        (fun a b => decide (a.2 ≤ b.2)) :=
      List.pair_sublist_mergeSort htrans htotal
        (by simp [decide_eq_true_eq]; omega) hsubl
    exact hne (eq_of_pair_sublist_both _ hnd hab hba)

theorem mem_inscripciones_por_curso (rows : List CleanRecord) (p : String × Nat) :
    p ∈ inscripciones_por_curso rows ↔ p ∈ inscripcionesPorCursoRaw rows := by
  unfold inscripciones_por_curso sortValuesDesc
  rw [List.mem_reverse, List.mem_mergeSort]

theorem length_inscripciones_por_curso (rows : List CleanRecord) :
    (inscripciones_por_curso rows).length = nunique (rows.map (·.curso)) := by
  unfold inscripciones_por_curso sortValuesDesc inscripcionesPorCursoRaw
    coursesSorted nunique
  rw [List.length_reverse, List.length_mergeSort, List.length_map,
    List.length_mergeSort]

/-! ### Reduction lemmas for `generarFs` -/

theorem generarFs_parse_error {parse : String → Option Nat} {df e}
    (now tmpName : String) (fs : List String)
    (h : parseColumn parse (dropna df) = .error e) :
    generarFs parse now tmpName df fs = (.error e, fs) := by
  simp only [generarFs, h]

theorem generarFs_ok_eq {parse : String → Option Nat} {df clean fmin fmax}
    (now tmpName : String) (fs : List String)
    (hpc : parseColumn parse (dropna df) = .ok clean)
    (hmin : minHora clean = some fmin) (hmax : maxHora clean = some fmax) :
    generarFs parse now tmpName df fs =
      (.ok ⟨tmpName, nunique (clean.map (·.nombre)), fmin, fmax,
        inscripciones_por_curso clean,
        Page.chart (nunique (clean.map (·.nombre))) fmin fmax
            (inscripciones_por_curso clean) now ::
          (inscripciones_por_curso clean).map fun p =>
            Page.tabla p.1 (datos_curso clean p.1).length (datos_curso clean p.1)⟩,
        tmpName :: fs) := by
  simp only [generarFs, hpc, hmin, hmax]

theorem generarFs_empty_eq {parse : String → Option Nat} {df clean}
    (now tmpName : String) (fs : List String)
    (hpc : parseColumn parse (dropna df) = .ok clean)
    (hmin : minHora clean = none) :
    generarFs parse now tmpName df fs = (.error natStrftimeMsg, tmpName :: fs) := by
  simp only [generarFs, hpc, hmin]

/-! ### Claims -/

/-- C1, counterexample.  In `dfTie` course "A" has its first (and only) row
before course "B" and both courses have one distinct registrant, yet the
code's ranking lists "B" first: the claimed first-appearance tie-break is
false.  (`groupby` orders courses alphabetically and
`sort_values(ascending=False)` reverses the ascending argsort, so ties come
out reverse-alphabetically.) -/
theorem C1_counterexample :
    parseColumn parseTS (dropna dfTie) = .ok cleanTie ∧
    cleanTie.map (·.curso) = ["A", "B"] ∧
    cursoNunique cleanTie "A" = 1 ∧ cursoNunique cleanTie "B" = 1 ∧
    inscripciones_por_curso cleanTie = [("B", 1), ("A", 1)] ∧
    generar_reporte_inscritos parseTS "hoy" "t.pdf" dfTie = .ok resTie := by
  refine ⟨rfl, rfl, ?_, ?_, ?_, ?_⟩ <;>
    simp +decide [generar_reporte_inscritos, generarFs, dfTie, cleanTie, resTie,
      dropna, parseColumn, parseTS, nunique, dedupFirst, dedupFirstAux, minHora,
      maxHora, List.min?, List.max?, inscripciones_por_curso,
      inscripcionesPorCursoRaw, coursesSorted, sortValuesDesc, cursoNunique,
      datos_curso, List.mergeSort, List.merge]

/-- C1, amended: the CourseRanking produced by line 33 is sorted by
`distinct_registrant_count` descending, and two courses with equal counts
appear in reverse alphabetical order of the course name (the reverse of the
groupby key order) — not in first-appearance order. -/
theorem C1_amended_ranking_order (rows : List CleanRecord) :
    (inscripciones_por_curso rows).Pairwise
      (fun a b => b.2 ≤ a.2 ∧ (a.2 = b.2 → b.1 < a.1)) :=
  ranking_sorted_desc rows

/-- C2, counterexample.  `dfMixed` holds one fully valid row and one row
whose timestamp does not parse; the claim says the bad row is silently
dropped and the call raises no error, but `pd.to_datetime` is invoked with
the default `errors='raise'` and the whole generation call fails. -/
theorem C2_counterexample :
    (dropna dfMixed).map (·.hora) = ["5", "xx"] ∧
    parseTS "5" = some 5 ∧ parseTS "xx" = none ∧
    generar_reporte_inscritos parseTS "d" "t.pdf" dfMixed =
      .error timestampErrorMsg := by
  exact ⟨rfl, rfl, rfl, rfl⟩

/-- C2, amended: a row whose timestamp field cannot be parsed makes the
whole generation call raise the timestamp-parse error (before the temporary
file is created); the row is not dropped and no report is produced. -/
theorem C2_amended_unparseable_raises (parse : String → Option Nat)
    (now tmpName : String) (df : List RawRecord) (fs : List String)
    (h : ∃ r ∈ dropna df, parse r.hora = none) :
    generarFs parse now tmpName df fs = (.error timestampErrorMsg, fs) ∧
    generar_reporte_inscritos parse now tmpName df = .error timestampErrorMsg := by
  have key : ∀ fs1 : List String,
      generarFs parse now tmpName df fs1 = (.error timestampErrorMsg, fs1) :=
    fun fs1 => generarFs_parse_error now tmpName fs1
      (parseColumn_error_of_unparseable parse (dropna df) h)
  exact ⟨key fs, by unfold generar_reporte_inscritos; rw [key []]⟩

/-- C2, witness for the amended theorem at a concrete input. -/
theorem C2_amended_unparseable_raises_witness :
    (∃ r ∈ dropna dfMixed, parseTS r.hora = none) ∧
    generar_reporte_inscritos parseTS "d" "t.pdf" dfMixed =
      .error timestampErrorMsg :=
  ⟨by decide,
   (C2_amended_unparseable_raises parseTS "d" "t.pdf" dfMixed [] (by decide)).2⟩

/-- C3: when validation leaves no clean record, the generation call fails
(the spec's `EmptyDatasetError`; concretely `fecha_minima` is `NaT` and
line 54's `.strftime` raises) and no statistics or document are returned to
the caller. -/
theorem C3_empty_clean_raises (parse : String → Option Nat)
    (now tmpName : String) (df : List RawRecord) (fs : List String)
    (h : dropna df = []) :
    generarFs parse now tmpName df fs = (.error natStrftimeMsg, tmpName :: fs) ∧
    generar_reporte_inscritos parse now tmpName df = .error natStrftimeMsg := by
  have hpc : parseColumn parse (dropna df) = .ok [] := by rw [h]; rfl
  have key : ∀ fs1 : List String,
      generarFs parse now tmpName df fs1 = (.error natStrftimeMsg, tmpName :: fs1) :=
    fun fs1 => generarFs_empty_eq now tmpName fs1 hpc (by rfl)
  exact ⟨key fs, by unfold generar_reporte_inscritos; rw [key []]⟩

/-- C3, witness: a dataset whose single row has a null course. -/
theorem C3_empty_clean_raises_witness :
    dropna dfNoCourse = [] ∧
    generar_reporte_inscritos parseTS "d" "t.pdf" dfNoCourse =
      .error natStrftimeMsg :=
  ⟨rfl, (C3_empty_clean_raises parseTS "d" "t.pdf" dfNoCourse [] rfl).2⟩

/-- C6, counterexample.  A row whose name field holds the empty string is
not null, so `dropna` keeps it, while the claimed validator (drop when null
OR empty, `validateSpec`) would discard it: the code checks nulls only. -/
theorem C6_counterexample :
    (dropna dfEmptyName).map (·.nombre) = [""] ∧
    validateSpec dfEmptyName = [] := by
  exact ⟨rfl, rfl⟩

/-- C6, amended: the validator returns exactly the subsequence of rows whose
full name, course and timestamp fields are non-null (present-but-empty
strings are kept), with every surviving row unchanged — hence no trimming,
no case-folding and no deduplication. -/
theorem C6_amended_dropna_exact (rows : List RawRecord) :
    (dropna rows).map KeptRecord.toRaw =
      rows.filter fun r => r.nombre.isSome && r.curso.isSome && r.hora.isSome :=
  dropna_map_toRaw rows

/-- C7, counterexample.  `dfBadTs` has one row with all required fields
present but an unparseable timestamp: the valid-record count (line 206)
still equals the raw count, so equality does not imply the absence of
unparseable timestamps — such a row aborts the call instead of shrinking
the count. -/
theorem C7_counterexample :
    cleanCount dfBadTs = dfBadTs.length ∧
    dfBadTs.map (·.hora) = [some "xx"] ∧ parseTS "xx" = none ∧
    generar_reporte_inscritos parseTS "d" "t.pdf" dfBadTs =
      .error timestampErrorMsg := by
  exact ⟨rfl, rfl, rfl, rfl⟩

/-- C7, amended: the clean-record count never exceeds the raw count, and
they are equal exactly when no raw row is missing one of the three required
fields (unparseable timestamps do not reduce the count; they abort the
call). -/
theorem C7_amended_clean_count (df : List RawRecord) :
    cleanCount df ≤ df.length ∧
    (cleanCount df = df.length ↔
      ∀ r ∈ df, r.nombre.isSome ∧ r.curso.isSome ∧ r.hora.isSome) :=
  ⟨length_dropna_le df, length_dropna_eq_iff df⟩

/-- C7, witness for the amended theorem at a concrete input. -/
theorem C7_amended_clean_count_witness :
    cleanCount dfScenario ≤ dfScenario.length ∧
    (cleanCount dfScenario = dfScenario.length ↔
      ∀ r ∈ dfScenario,
        r.nombre.isSome ∧ r.curso.isSome ∧ r.hora.isSome) :=
  C7_amended_clean_count dfScenario

/-- C9: the statistics (unique-person count, earliest and latest timestamp,
CourseRanking) and the page count are a pure function of the input dataset:
they do not depend on the wall-clock generation-date text, on the temporary
path, or on the pre-existing files. -/
theorem C9_determinism (parse : String → Option Nat) (df : List RawRecord)
    (now1 now2 tmp1 tmp2 : String) (fs1 fs2 : List String) :
    observables (generarFs parse now1 tmp1 df fs1).1 =
      observables (generarFs parse now2 tmp2 df fs2).1 := by
  cases hpc : parseColumn parse (dropna df) with
  | error e =>
    rw [generarFs_parse_error now1 tmp1 fs1 hpc,
      generarFs_parse_error now2 tmp2 fs2 hpc]
  | ok clean =>
    cases hmin : minHora clean with
    | none =>
      rw [generarFs_empty_eq now1 tmp1 fs1 hpc hmin,
        generarFs_empty_eq now2 tmp2 fs2 hpc hmin]
    | some fmin =>
      cases hmax : maxHora clean with
      | none =>
        have hnil : clean = [] := (maxHora_eq_none_iff clean).mp hmax
        rw [hnil] at hmin
        simp [minHora, List.min?] at hmin
      | some fmax =>
        rw [generarFs_ok_eq now1 tmp1 fs1 hpc hmin hmax,
          generarFs_ok_eq now2 tmp2 fs2 hpc hmin hmax]
        simp [observables]

/-- C4: each CourseRanking entry pairs a course with the number of distinct
full names among that course's clean records — not the row count — and
appending a duplicate row for a person already registered in the course
(even with a different contact email or timestamp) leaves every course's
count unchanged. -/
theorem C4_distinct_name_counts :
    (∀ (rows : List CleanRecord) (p : String × Nat),
        p ∈ inscripciones_por_curso rows →
        p.2 = nunique ((rows.filter fun r => r.curso == p.1).map (·.nombre))) ∧
    (∀ (rows : List CleanRecord) (r s : CleanRecord), s ∈ rows →
        s.nombre = r.nombre → s.curso = r.curso →
        ∀ c, cursoNunique (rows ++ [r]) c = cursoNunique rows c) := by
  constructor
  · intro rows p hp
    exact congrArg Prod.snd
      (mem_raw_eq rows ((mem_inscripciones_por_curso rows p).mp hp))
  · intro rows r s hs hname hcurso c
    unfold cursoNunique
    rw [List.filter_append]
    by_cases hc : r.curso == c
    · rw [show List.filter (fun x => x.curso == c) [r] = [r] by
        simp [List.filter, hc]]
      rw [List.map_append]
      apply nunique_append_mem
      apply List.mem_map.mpr
      refine ⟨s, List.mem_filter.mpr ⟨hs, by rw [hcurso]; exact hc⟩, hname⟩
    · rw [show List.filter (fun x => x.curso == c) [r] = [] by
        simp [List.filter, hc]]
      rw [List.append_nil]

/-- C4, witness: in the spec's three-row scenario the Python count is the
number of distinct names (1, despite two rows), and appending one more
(Alice, Python) row with a fresh email changes no course count. -/
theorem C4_distinct_name_counts_witness :
    (("Python", 1) : String × Nat).2 =
      nunique ((cleanScenario.filter fun r => r.curso == "Python").map (·.nombre)) ∧
    cursoNunique (cleanScenario ++ [⟨"Alice", "Python", 9, some "new@x"⟩]) "Python" =
      cursoNunique cleanScenario "Python" :=
  ⟨C4_distinct_name_counts.1 cleanScenario ("Python", 1)
      (by simp +decide [inscripciones_por_curso, cleanScenario,
        inscripcionesPorCursoRaw, coursesSorted, sortValuesDesc, cursoNunique,
        nunique, dedupFirst, dedupFirstAux, List.mergeSort, List.merge]),
   C4_distinct_name_counts.2 cleanScenario ⟨"Alice", "Python", 9, some "new@x"⟩
      ⟨"Alice", "Python", 1, some "a@x.com"⟩ (by decide) rfl rfl "Python"⟩

/-- C5: each course's roster is the course's (name, email) pairs with exact
duplicate pairs removed keeping first occurrences in order (equal to the
spec's left-fold formulation), it never holds two identical pairs, and every
roster page of a successful run shows exactly that roster with the title
count equal to its length. -/
theorem C5_roster_dedup :
    (∀ (rows : List CleanRecord) (c : String),
        datos_curso rows c =
          dedupSpec ((rows.filter fun r => r.curso == c).map
            fun r => (r.nombre, r.correo)) ∧
        (datos_curso rows c).Nodup) ∧
    (∀ (parse : String → Option Nat) (now tmpName : String)
        (df : List RawRecord) (fs : List String) (clean : List CleanRecord),
        parseColumn parse (dropna df) = .ok clean → clean ≠ [] →
        ∃ r, generarFs parse now tmpName df fs = (.ok r, tmpName :: fs) ∧
          ∀ c t d, Page.tabla c t d ∈ r.pages →
            t = d.length ∧ d = datos_curso clean c) := by
  constructor
  · intro rows c
    exact ⟨dedupFirst_eq_dedupSpec _, nodup_dedupFirst _⟩
  · intro parse now tmpName df fs clean hpc hne
    obtain ⟨fmin, hmin⟩ : ∃ m, minHora clean = some m := by
      cases hm : minHora clean with
      | none => exact absurd ((minHora_eq_none_iff clean).mp hm) hne
      | some m => exact ⟨m, rfl⟩
    obtain ⟨fmax, hmax⟩ : ∃ m, maxHora clean = some m := by
      cases hm : maxHora clean with
      | none => exact absurd ((maxHora_eq_none_iff clean).mp hm) hne
      | some m => exact ⟨m, rfl⟩
    refine ⟨_, generarFs_ok_eq now tmpName fs hpc hmin hmax, ?_⟩
    intro c t d hmem
    rcases List.mem_cons.mp hmem with h | h
    · exact absurd h (by simp)
    · obtain ⟨p, _, heq⟩ := List.mem_map.mp h
      simp only [Page.tabla.injEq] at heq
      obtain ⟨rfl, rfl, rfl⟩ := heq
      exact ⟨rfl, rfl⟩

/-- C5, witness at the spec's three-row scenario. -/
theorem C5_roster_dedup_witness :
    (datos_curso cleanScenario "Python" =
        dedupSpec ((cleanScenario.filter fun r => r.curso == "Python").map
          fun r => (r.nombre, r.correo)) ∧
      (datos_curso cleanScenario "Python").Nodup) ∧
    (∃ r, generarFs parseTS "hoy" "tmp.pdf" dfScenario [] = (.ok r, ["tmp.pdf"]) ∧
      ∀ c t d, Page.tabla c t d ∈ r.pages →
        t = d.length ∧ d = datos_curso cleanScenario c) :=
  ⟨C5_roster_dedup.1 cleanScenario "Python",
   C5_roster_dedup.2 parseTS "hoy" "tmp.pdf" dfScenario [] cleanScenario
     rfl (by decide)⟩

/-- C8: a successful run on a non-empty clean dataset produces one chart
page followed by one roster page per distinct course, the roster pages in
CourseRanking order, so the page count is 1 + the distinct-course count. -/
theorem C8_page_count (parse : String → Option Nat) (now tmpName : String)
    (df : List RawRecord) (fs : List String) (clean : List CleanRecord)
    (hpc : parseColumn parse (dropna df) = .ok clean) (hne : clean ≠ []) :
    ∃ r, generarFs parse now tmpName df fs = (.ok r, tmpName :: fs) ∧
      r.pages.length = 1 + nunique (clean.map (·.curso)) ∧
      r.inscripcionesPorCurso = inscripciones_por_curso clean ∧
      r.pages.map pageCourse =
        none :: (inscripciones_por_curso clean).map fun p => some p.1 := by
  obtain ⟨fmin, hmin⟩ : ∃ m, minHora clean = some m := by
    cases hm : minHora clean with
    | none => exact absurd ((minHora_eq_none_iff clean).mp hm) hne
    | some m => exact ⟨m, rfl⟩
  obtain ⟨fmax, hmax⟩ : ∃ m, maxHora clean = some m := by
    cases hm : maxHora clean with
    | none => exact absurd ((maxHora_eq_none_iff clean).mp hm) hne
    | some m => exact ⟨m, rfl⟩
  refine ⟨_, generarFs_ok_eq now tmpName fs hpc hmin hmax, ?_, rfl, ?_⟩
  · simp only [List.length_cons, List.length_map,
      length_inscripciones_por_curso]
    omega
  · simp [pageCourse, List.map_map, Function.comp_def]

/-- C8, witness at the spec's three-row scenario: 3 pages, chart first,
then Python and Go rosters in ranking order. -/
theorem C8_page_count_witness :
    ∃ r, generarFs parseTS "hoy" "tmp.pdf" dfScenario [] = (.ok r, ["tmp.pdf"]) ∧
      r.pages.length = 1 + nunique (cleanScenario.map (·.curso)) ∧
      r.inscripcionesPorCurso = inscripciones_por_curso cleanScenario ∧
      r.pages.map pageCourse =
        none :: (inscripciones_por_curso cleanScenario).map fun p => some p.1 :=
  C8_page_count parseTS "hoy" "tmp.pdf" dfScenario [] cleanScenario rfl (by decide)

/-- C10: the temporary pdf path is NOT deleted on the error path.  On a
dataset whose single row lacks a course, the temporary file is created,
the call then fails, `main` only displays the error (line 271), and the
file outlives the failed generation call. -/
theorem C10_temp_file_leak :
    generarFs parseTS "d" "tmp.pdf" dfNoCourse [] =
      (.error natStrftimeMsg, ["tmp.pdf"]) ∧
    mainAfterGenerate parseTS "d" "tmp.pdf" dfNoCourse [] = ["tmp.pdf"] := by
  exact ⟨rfl, rfl⟩

end ReporteInscritos
